import Mathlib

/-!
Shallow embedding of the httpeter request router (src/index.ts).

JavaScript dynamic values are modelled by the inductive `JVal`; a settled
promise (resolved or rejected) is modelled by `Except JErr _`; thrown values
are modelled by `JErr`.  The response callback of `handleRequest` is modelled
by collecting the list of invocations the pipeline performs, so that the
"exactly once" contract is the statement that this list has length one.
-/

namespace Httpeter

/-- JSON-style dynamic value (bodies, query data, ...). -/
inductive JVal where
  | null
  | bool (b : Bool)
  | num (n : Int)
  | str (s : String)
  | arr (elems : List JVal)
  | obj (fields : List (String × JVal))


/-- `class HttpError extends Error`: status code, message (an `Error`'s
message may be absent), and a structured body defaulting to `null`. -/
structure HttpError where
  statusCode : Int
  message : Option String
  body : JVal


/-- A thrown/rejected JavaScript value, as far as `getError` inspects it:
either an actual `HttpError` instance, or any other error object carrying an
optional numeric `statusCode` field, a message and a `body` field
(`none`/`null` when absent — the `HttpError` constructor's default turns an
absent body into `null`). -/
inductive JErr where
  | httpError (e : HttpError)
  | plain (statusCode : Option Int) (message : Option String) (body : JVal)


/-- `interface Request`.  `query` is the optional pre-parsed query mapping,
`body` the optional raw body string. -/
structure Request where
  method : String
  path : String
  headers : List (String × JVal)
  query : Option JVal
  body : Option String


/-- `interface Response` produced by a handler. -/
structure Response where
  statusCode : Int
  headers : List (String × String)
  body : JVal


/-- `interface ServiceNode<U>`: verb-name-to-handler mapping plus named
children.  JavaScript objects are modelled as association lists (no duplicate
keys arise from object literals; lookup finds the unique binding).  The
children mapping is `Option`al because `invoke` defensively checks for a
`null`/`undefined` children field.  A handler (`RequestHandler<U>`) takes the
request and the lazy authentication accessor and returns a settled promise. -/
inductive ServiceNode (U : Type) where
  | mk (methods : List (String × (Request → (Unit → Except JErr U) → Except JErr Response)))
       (children : Option (List (String × ServiceNode U)))

def ServiceNode.methods {U : Type} :
    ServiceNode U → List (String × (Request → (Unit → Except JErr U) → Except JErr Response))
  | .mk m _ => m

def ServiceNode.children {U : Type} : ServiceNode U → Option (List (String × ServiceNode U))
  | .mk _ c => c

/-- `invoke(node, tag)`: one child-lookup step of the resolver.  Throwing is
modelled by `Except.error`.  The not-found message interpolates
`Object.keys(node.children)`, which JavaScript stringifies as the
comma-joined key list. -/
def invoke {U : Type} (node : ServiceNode U) (tag : String) :
    Except HttpError (ServiceNode U) :=
  match node.children with
  | none => .error ⟨404, some "Illegal node parent. Missing children.", JVal.null⟩
  | some children =>
      match children.lookup tag with
      | none =>
          .error ⟨404,
            some ("Resource not found: " ++ tag ++ ". Did you mean " ++
              String.intercalate "," (children.map Prod.fst) ++ "?"),
            JVal.null⟩
      | some fn => .ok fn

/-- `getQueryResult(node, paths, index)`: recursive descent.  The source
recurses with `index + 1` after a successful `invoke` and stops when
`index === paths.length`; an index beyond the length never occurs (the only
entry point starts at 0), so that dead branch just returns the node. -/
def getQueryResult {U : Type} (node : ServiceNode U) (paths : List String) (index : Nat) :
    Except HttpError (ServiceNode U) :=
  if index = paths.length then .ok node
  else if h : index < paths.length then
    match invoke node (paths.get ⟨index, h⟩) with
    | .error e => .error e
    | .ok result => getQueryResult result paths (index + 1)
  else .ok node
termination_by paths.length - index

/-- JavaScript `String.prototype.split` with a single-character separator,
on character lists.  Never returns `[]`; splitting the empty string yields
`[[]]`. -/
def jsSplit (sep : Char) : List Char → List (List Char)
  | [] => [[]]
  | c :: rest =>
      match jsSplit sep rest with
      | [] => [[]]
      | group :: groups =>
          if c = sep then [] :: group :: groups else (c :: group) :: groups

/-- JavaScript `values[key] = v` on an object modelled as an association
list: an existing binding is updated in place (JavaScript keeps the original
insertion position), otherwise the binding is appended. -/
def objInsert {V : Type} : List (String × V) → String → V → List (String × V)
  | [], key, v => [(key, v)]
  | (k, w) :: rest, key, v =>
      if k = key then (key, v) :: rest else (k, w) :: objInsert rest key v

/-- JavaScript object spread `{...base, ...ext}`. -/
def spread {V : Type} (base ext : List (String × V)) : List (String × V) :=
  ext.foldl (fun acc kv => objInsert acc kv.1 kv.2) base

/-- JavaScript `str.indexOf(c)` for a single character, as an option. -/
def indexOf? (c : Char) : List Char → Option Nat
  | [] => none
  | x :: xs => if x = c then some 0 else (indexOf? c xs).map (· + 1)

/-- `readValues(str)`: parse `a=1&b=2&c=8` into a flat mapping.  A pair with
no `=` maps its key to `undefined` (`none`); extra `=`-separated pieces are
dropped, exactly as `parts[i].split("=")[1]` drops them. -/
def readValues (str : String) : List (String × Option String) :=
  if str.length = 0 then []
  else
    (jsSplit '&' str.toList).foldl
      (fun values part =>
        let keys := jsSplit '=' part
        objInsert values (String.mk (keys.headD [])) (((keys.drop 1).head?).map String.mk))
      []

/-- Result of `parsePath`: the path portion and the optional query mapping
(`none` models the explicit `null`). -/
structure ParsedPath where
  path : String
  query : Option (List (String × Option String))


/-- `parsePath(str)`: split at the first `?` into path and parsed query. -/
def parsePath (str : String) : ParsedPath :=
  match indexOf? '?' str.toList with
  | none => { path := str, query := none }
  | some k =>
      { path := String.mk (str.toList.take k),
        query := some (readValues (String.mk (str.toList.drop (k + 1)))) }

/-- `readParts(path)`: the argument is optional because the source checks for
`null`/`undefined`.  A non-empty string loses its first character
(`path.substr(1)`) and the rest is split on `/`. -/
def readParts : Option String → List String
  | none => []
  | some path =>
      if path.length = 0 then []
      else (jsSplit '/' (path.toList.drop 1)).map fun chars => String.mk chars

/-- Result of `getRequestData`: the pre-parsed query, the falsy "absent"
sentinel (`undefined` body or empty-string body), or a JSON-decoded body. -/
inductive ReqData where
  | query (q : Option JVal)
  | absent
  | parsed (v : JVal)


/-- `getRequestData(request)`.  `JSON.parse` is a host builtin, passed in as
a parameter; it may throw, which only happens on the non-empty-body branch. -/
def getRequestData (jsonParse : String → Except JErr JVal) (request : Request) :
    Except JErr ReqData :=
  if request.method = "GET" ∨ request.method = "DELETE" then
    .ok (ReqData.query request.query)
  else
    match request.body with
    | none => .ok ReqData.absent
    | some s =>
        if s.length > 0 then (jsonParse s).map ReqData.parsed else .ok ReqData.absent

/-- The fixed CORS/header set `options`. -/
def options : List (String × String) :=
  [("Access-Control-Allow-Origin", "*"),
   ("Access-Control-Allow-Headers", "Authorization, Content-Type, Auth-Provider"),
   ("Access-Control-Allow-Methods", "OPTIONS, GET, POST, PUT"),
   ("Content-Type", "application/json")]

/-- `getError(error)`: normalize any thrown value to an `HttpError`.  An
actual `HttpError` passes through; otherwise `if (e.statusCode)` is a
JavaScript truthiness test, so an absent or zero status code falls through to
the 500 wrap (which drops the body: `new HttpError(500, error.message)`). -/
def statusCodeTruthy : Option Int → Bool
  | none => false
  | some n => n != 0

def getError : JErr → HttpError
  | .httpError e => e
  | .plain statusCode message body =>
      if statusCodeTruthy statusCode then
        { statusCode := statusCode.getD 0, message := message, body := body }
      else
        { statusCode := 500, message := message, body := JVal.null }

/-- Body handed to the response callback: either a plain value (success,
OPTIONS and 404 short-circuits) or the error object literal
`{request, message, body}` built by `returnError`. -/
inductive CbBody where
  | val (v : JVal)
  | err (request : Request) (message : Option String) (body : JVal)


/-- One invocation of the response callback `(code, header, body)`. -/
structure CbCall where
  code : Int
  headers : List (String × String)
  body : CbBody


/-- The callback invocation `returnError` performs. -/
def returnErrorCall (request : Request) (error : JErr) : CbCall :=
  ⟨(getError error).statusCode, options,
    CbBody.err request (getError error).message (getError error).body⟩

/-- The callback invocation `returnResponse` performs:
`callback(200, { ...options, ...response.headers }, response.body)`. -/
def returnResponseCall (response : Response) : CbCall :=
  ⟨200, spread options response.headers, CbBody.val response.body⟩

/-- `handleRequest(root)(auth, request, callback)`, with the callback's
invocations collected in order.  The `try` block covers parsing, resolution
and the method lookup; a found handler's settled promise is delivered through
`returnResponse` / `returnError`; a missing handler short-circuits to the
OPTIONS or 404 response. -/
def handleRequest {U : Type} (root : ServiceNode U) (auth : Unit → Except JErr U)
    (request : Request) : List CbCall :=
  match getQueryResult root (readParts (some request.path)) 0 with
  | .error e => [returnErrorCall request (JErr.httpError e)]
  | .ok node =>
      match node.methods.lookup request.method with
      | some method =>
          match method request auth with
          | .ok response => [returnResponseCall response]
          | .error e => [returnErrorCall request e]
      | none =>
          if request.method = "OPTIONS" then [⟨200, options, CbBody.val (JVal.obj [])⟩]
          else [⟨404, options, CbBody.val (JVal.obj [])⟩]

/-- `authenticate(handler)`: await the accessor, then the handler, and wrap
the result as a 200 response with empty headers.  Each `await` is modelled by
a match on the settled promise: a rejection short-circuits, exactly as an
async function propagates it. -/
def authenticate {U : Type} (handler : U → Request → Except JErr JVal)
    (request : Request) (auth : Unit → Except JErr U) : Except JErr Response :=
  match auth () with
  | .error e => .error e
  | .ok user =>
      match handler user request with
      | .error e => .error e
      | .ok result => .ok { statusCode := 200, headers := [], body := result }

/-- Specification-level resolver for the refinement claim about resolution,
written from the spec's words: consume the segments one at a time from the
given node, each step looking the next segment up in the current node's
children mapping (the lookup step, including its failure modes, is the
`invoke` step). -/
def resolveSpec {U : Type} : ServiceNode U → List String → Except HttpError (ServiceNode U)
  | node, [] => .ok node
  | node, seg :: rest =>
      match invoke node seg with
      | .error e => .error e
      | .ok child => resolveSpec child rest

/-- Every segment of the sequence is a valid child key at its level. -/
def validPath {U : Type} : ServiceNode U → List String → Bool
  | _, [] => true
  | node, seg :: rest =>
      match node.children with
      | none => false
      | some cs =>
          match cs.lookup seg with
          | none => false
          | some child => validPath child rest


/-! Concrete fixtures (small trees, requests and accessors) used to
instantiate the general theorems. -/

def exHit : Response := { statusCode := 200, headers := [], body := JVal.str "hit" }

/-- A leaf node exposing only a GET handler that succeeds with `resp`. -/
def leafGet (resp : Response) : ServiceNode Unit :=
  .mk [("GET", fun _ _ => .ok resp)] (some [])

/-- A root with a single child named "a". -/
def exTreeA : ServiceNode Unit := .mk [] (some [("a", leafGet exHit)])

/-- A malformed node whose children mapping is absent. -/
def exNoChildren : ServiceNode Unit := .mk [] none

def exAuth : Unit → Except JErr Unit := fun _ => .ok ()

def exReqQuery : Request :=
  { method := "GET", path := "/a?x=1", headers := [], query := none, body := none }

def exReqGet : Request :=
  { method := "GET", path := "/a", headers := [], query := none, body := none }

def exReqOpt : Request :=
  { method := "OPTIONS", path := "/a", headers := [], query := none, body := none }

def exErr : JErr := .plain (some 403) (some "forbidden") (JVal.str "extra")

/-- A root whose POST handler rejects with `exErr`. -/
def exTreeReject : ServiceNode Unit := .mk [("POST", fun _ _ => .error exErr)] (some [])

def exReqPost : Request :=
  { method := "POST", path := "", headers := [], query := none, body := none }

def exAuthErr : JErr := .plain none (some "auth failed") JVal.null

def exAuthReject : Unit → Except JErr Unit := fun _ => .error exAuthErr

def exHandler : Unit → Request → Except JErr JVal := fun _ rq => .ok (JVal.str rq.method)

def exParse : String → Except JErr JVal := fun s => .ok (JVal.str s)

def exReqPostEmpty : Request :=
  { method := "POST", path := "", headers := [], query := none, body := some "" }

def exReqGetQ : Request :=
  { method := "GET", path := "", headers := [], query := some (JVal.str "q"), body := none }

/-- A root with its own GET handler and a child whose name is the empty
string. -/
def exTreeEmptyChild : ServiceNode Unit :=
  .mk [("GET", fun _ _ => .ok { statusCode := 200, headers := [], body := JVal.str "root" })]
      (some [("", leafGet { statusCode := 200, headers := [], body := JVal.str "empty-child" })])

/-- A root with its own GET handler and a single child named "a". -/
def exTreeNoEmptyChild : ServiceNode Unit :=
  .mk [("GET", fun _ _ => .ok { statusCode := 200, headers := [], body := JVal.str "root" })]
      (some [("a", leafGet exHit)])

def exReqRoot : Request :=
  { method := "GET", path := "/", headers := [], query := none, body := none }

theorem lookup_cons_eq {V : Type} (k k1 : String) (v1 : V) (rest : List (String × V)) :
    ((k1, v1) :: rest).lookup k = if k = k1 then some v1 else rest.lookup k := by
  rw [List.lookup_cons]
  by_cases h : k = k1
  · simp [h]
  · have hb : (k == k1) = false := by simp [h]
    simp [hb, h]

theorem getQueryResult_eq_resolveSpec_aux {U : Type} (n : Nat) :
    ∀ (node : ServiceNode U) (paths : List String) (index : Nat),
      paths.length - index = n → index ≤ paths.length →
      getQueryResult node paths index = resolveSpec node (paths.drop index) := by
  induction n with
  | zero =>
      intro node paths index hn hle
      have hidx : index = paths.length := by omega
      rw [getQueryResult]
      simp [hidx, List.drop_length, resolveSpec]
  | succ k ih =>
      intro node paths index hn hle
      have hlt : index < paths.length := by omega
      have hne : ¬ index = paths.length := by omega
      have hdrop : paths.drop index = paths[index] :: paths.drop (index + 1) :=
        List.drop_eq_getElem_cons hlt
      rw [getQueryResult, if_neg hne, dif_pos hlt]
      rw [hdrop]
      simp only [resolveSpec, List.get_eq_getElem]
      cases hinv : invoke node paths[index] with
      | error e => simp [hinv]
      | ok child =>
          simp only [hinv]
          exact ih child paths (index + 1) (by omega) (by omega)

/-- `getQueryResult` from index 0 is exactly the one-segment-at-a-time
descent of the specification. -/
theorem getQueryResult_eq_resolveSpec {U : Type} (node : ServiceNode U) (paths : List String) :
    getQueryResult node paths 0 = resolveSpec node paths := by
  simpa using getQueryResult_eq_resolveSpec_aux (paths.length) node paths 0 (by omega) (by omega)

/-- On an all-valid segment sequence the spec resolver never fails. -/
theorem resolveSpec_isOk_of_validPath {U : Type} :
    ∀ (paths : List String) (node : ServiceNode U), validPath node paths = true →
      ∃ r, resolveSpec node paths = .ok r := by
  intro paths
  induction paths with
  | nil => intro node _; exact ⟨node, rfl⟩
  | cons seg rest ih =>
      intro node hv
      rw [validPath] at hv
      split at hv
      · simp at hv
      · rename_i cs hcs
        split at hv
        · simp at hv
        · rename_i child hlk
          obtain ⟨r, hr⟩ := ih child hv
          refine ⟨r, ?_⟩
          have hinv : invoke node seg = .ok child := by
            rw [invoke, hcs]
            simp [hlk]
          simp only [resolveSpec, hinv]
          exact hr

/-- `jsSplit` never returns the empty list of groups. -/
theorem jsSplit_ne_nil (sep : Char) (l : List Char) : jsSplit sep l ≠ [] := by
  cases l with
  | nil => simp [jsSplit]
  | cons c rest =>
      rw [jsSplit]
      cases jsSplit sep rest with
      | nil => simp
      | cons g gs =>
          by_cases h : c = sep <;> simp [h]

/-- Unfolding equation for `jsSplit` on a cons, once the recursive result is
known to be a cons (it always is, by `jsSplit_ne_nil`). -/
theorem jsSplit_cons (sep c : Char) (rest group : List Char) (groups : List (List Char))
    (h : jsSplit sep rest = group :: groups) :
    jsSplit sep (c :: rest) =
      if c = sep then [] :: group :: groups else (c :: group) :: groups := by
  rw [jsSplit, h]

/-- A character different from the separator survives splitting: it occurs
in one of the produced groups. -/
theorem mem_jsSplit_of_mem {x sep : Char} (hne : x ≠ sep) :
    ∀ l : List Char, x ∈ l → ∃ g ∈ jsSplit sep l, x ∈ g := by
  intro l
  induction l with
  | nil => intro h; cases h
  | cons c rest ih =>
      intro hmem
      cases hrec : jsSplit sep rest with
      | nil => exact absurd hrec (jsSplit_ne_nil sep rest)
      | cons group groups =>
          rw [jsSplit_cons sep c rest group groups hrec]
          rcases List.mem_cons.mp hmem with rfl | hx
          · rw [if_neg hne]
            exact ⟨x :: group, List.mem_cons_self _ _, List.mem_cons_self _ _⟩
          · obtain ⟨g, hg, hxg⟩ := ih hx
            rw [hrec] at hg
            rcases List.mem_cons.mp hg with rfl | hgt
            · by_cases hcsep : c = sep
              · rw [if_pos hcsep]
                exact ⟨g, by simp, hxg⟩
              · rw [if_neg hcsep]
                exact ⟨c :: g, by simp, List.mem_cons_of_mem _ hxg⟩
            · by_cases hcsep : c = sep
              · rw [if_pos hcsep]
                exact ⟨g, by simp [hgt], hxg⟩
              · rw [if_neg hcsep]
                exact ⟨g, by simp [hgt], hxg⟩

theorem lookup_objInsert_self {V : Type} (l : List (String × V)) (k : String) (v : V) :
    (objInsert l k v).lookup k = some v := by
  induction l with
  | nil => simp [objInsert, lookup_cons_eq]
  | cons p rest ih =>
      obtain ⟨k0, w⟩ := p
      rw [objInsert]
      by_cases h : k0 = k
      · rw [if_pos h, lookup_cons_eq, if_pos rfl]
      · rw [if_neg h, lookup_cons_eq, if_neg (fun e => h e.symm), ih]

theorem lookup_objInsert_ne {V : Type} (l : List (String × V)) (k k' : String) (v : V)
    (h : k' ≠ k) : (objInsert l k v).lookup k' = l.lookup k' := by
  induction l with
  | nil => simp [objInsert, lookup_cons_eq, h]
  | cons p rest ih =>
      obtain ⟨k0, w⟩ := p
      rw [objInsert]
      by_cases hk : k0 = k
      · have h' : ¬ k' = k0 := by rw [hk]; exact h
        rw [if_pos hk, lookup_cons_eq, lookup_cons_eq, if_neg h, if_neg h']
      · rw [if_neg hk, lookup_cons_eq, lookup_cons_eq]
        by_cases hk' : k' = k0
        · rw [if_pos hk', if_pos hk']
        · rw [if_neg hk', if_neg hk', ih]

theorem mem_keys_of_lookup_eq_some {V : Type} :
    ∀ (l : List (String × V)) (k : String) (v : V),
      l.lookup k = some v → k ∈ l.map Prod.fst := by
  intro l
  induction l with
  | nil => intro k v h; simp at h
  | cons p rest ih =>
      intro k v h
      obtain ⟨k0, w⟩ := p
      rw [lookup_cons_eq] at h
      by_cases hk : k = k0
      · simp [hk]
      · rw [if_neg hk] at h
        exact List.mem_cons_of_mem _ (ih k v h)

/-- Keys absent from the spread's right operand keep their left value. -/
theorem lookup_spread_of_not_right {V : Type} :
    ∀ (ext base : List (String × V)) (k : String), ext.lookup k = none →
      (spread base ext).lookup k = base.lookup k := by
  intro ext
  induction ext with
  | nil => intro base k _; rfl
  | cons p rest ih =>
      intro base k hk
      obtain ⟨k1, v1⟩ := p
      rw [lookup_cons_eq] at hk
      by_cases hkk : k = k1
      · rw [if_pos hkk] at hk
        exact absurd hk (by simp)
      · rw [if_neg hkk] at hk
        show (spread (objInsert base k1 v1) rest).lookup k = base.lookup k
        rw [ih (objInsert base k1 v1) k hk, lookup_objInsert_ne base k1 k v1 hkk]

/-- Keys bound in the spread's right operand win, provided the right
operand's keys are duplicate-free (a JavaScript object cannot carry
duplicate keys). -/
theorem lookup_spread_of_right {V : Type} :
    ∀ (ext base : List (String × V)) (k : String) (v : V),
      (ext.map Prod.fst).Nodup → ext.lookup k = some v →
      (spread base ext).lookup k = some v := by
  intro ext
  induction ext with
  | nil => intro base k v _ h; simp at h
  | cons p rest ih =>
      intro base k v hnd hk
      obtain ⟨k1, v1⟩ := p
      rw [List.map_cons, List.nodup_cons] at hnd
      rw [lookup_cons_eq] at hk
      by_cases hkk : k = k1
      · rw [if_pos hkk] at hk
        injection hk with hv
        have hrest : rest.lookup k = none := by
          cases hlk : rest.lookup k with
          | none => rfl
          | some w =>
              have hmem : k ∈ rest.map Prod.fst := mem_keys_of_lookup_eq_some rest k w hlk
              rw [hkk] at hmem
              exact absurd hmem hnd.1
        show (spread (objInsert base k1 v1) rest).lookup k = some v
        rw [lookup_spread_of_not_right rest (objInsert base k1 v1) k hrest, hkk,
          lookup_objInsert_self, hv]
      · rw [if_neg hkk] at hk
        exact ih (objInsert base k1 v1) k v hnd.2 hk

/-- C1: for every service tree, authentication accessor and request, a
single call to `handleRequest` invokes the response callback exactly once —
on the success path, on the missing-handler OPTIONS and 404 paths, when
resolution throws synchronously, and when the handler promise rejects.  The
callback is modelled by the list of invocations the pipeline performs, so
exactly-once is that list having length one. -/
theorem handleRequest_callback_exactly_once {U : Type} (root : ServiceNode U)
    (auth : Unit → Except JErr U) (request : Request) :
    (handleRequest root auth request).length = 1 := by
  cases hres : getQueryResult root (readParts (some request.path)) 0 with
  | error e => simp [handleRequest, hres]
  | ok node =>
      cases hlk : node.methods.lookup request.method with
      | some method =>
          cases hm : method request auth with
          | ok response => simp [handleRequest, hres, hlk, hm]
          | error e => simp [handleRequest, hres, hlk, hm]
      | none =>
          simp only [handleRequest, hres, hlk]
          by_cases h : request.method = "OPTIONS" <;> simp [h]

/-- C3: resolution (`getQueryResult` from index 0) returns exactly the node
obtained by consuming segments one at a time via child-mapping lookup — the
given node itself for an empty sequence — and never throws when every
segment is a valid child key at its level; a segment absent from the current
children yields a 404 `HttpError` echoing the segment and the valid child
keys, and an absent children mapping yields the 404
"Illegal node parent. Missing children." error. -/
theorem getQueryResult_resolution_contract {U : Type} (node : ServiceNode U)
    (paths : List String) :
    getQueryResult node paths 0 = resolveSpec node paths
    ∧ getQueryResult node [] 0 = .ok node
    ∧ (validPath node paths = true → ∃ r, getQueryResult node paths 0 = .ok r)
    ∧ (∀ (n : ServiceNode U) (tag : String), n.children = none →
        invoke n tag = .error ⟨404, some "Illegal node parent. Missing children.", JVal.null⟩)
    ∧ (∀ (n : ServiceNode U) (cs : List (String × ServiceNode U)) (tag : String),
        n.children = some cs → cs.lookup tag = none →
        invoke n tag = .error ⟨404,
          some ("Resource not found: " ++ tag ++ ". Did you mean " ++
            String.intercalate "," (cs.map Prod.fst) ++ "?"), JVal.null⟩) := by
  refine ⟨getQueryResult_eq_resolveSpec node paths, ?_, ?_, ?_, ?_⟩
  · rw [getQueryResult_eq_resolveSpec]
    rfl
  · intro hv
    rw [getQueryResult_eq_resolveSpec]
    exact resolveSpec_isOk_of_validPath paths node hv
  · intro n tag hch
    simp only [invoke, hch]
  · intro n cs tag hch hlk
    simp only [invoke, hch, hlk]

/-- Witness for the resolution contract at a concrete tree: a valid
one-segment path resolves, a node without children mapping raises the
defensive 404, and a missing segment raises the diagnostic 404. -/
theorem getQueryResult_resolution_contract_witness :
    validPath exTreeA ["a"] = true
    ∧ (∃ r, getQueryResult exTreeA ["a"] 0 = .ok r)
    ∧ invoke exNoChildren "x" =
        .error ⟨404, some "Illegal node parent. Missing children.", JVal.null⟩
    ∧ invoke exTreeA "b" =
        .error ⟨404, some "Resource not found: b. Did you mean a?", JVal.null⟩ :=
  ⟨rfl,
   (getQueryResult_resolution_contract exTreeA ["a"]).2.2.1 rfl,
   (getQueryResult_resolution_contract exTreeA ["a"]).2.2.2.1 exNoChildren "x" rfl,
   (getQueryResult_resolution_contract exTreeA ["a"]).2.2.2.2
     exTreeA [("a", leafGet exHit)] "b" rfl rfl⟩

/-- C6: a request resolving to a node with no handler for its verb gets the
OPTIONS short-circuit (200, fixed headers, empty body) when the verb is
OPTIONS, and otherwise 404 with the fixed headers and an empty body,
regardless of where the node sits in the tree. -/
theorem missing_handler_options_and_404 {U : Type} (root : ServiceNode U)
    (auth : Unit → Except JErr U) (request : Request) (node : ServiceNode U)
    (hres : getQueryResult root (readParts (some request.path)) 0 = .ok node)
    (hlk : node.methods.lookup request.method = none) :
    handleRequest root auth request =
      [⟨if request.method = "OPTIONS" then 200 else 404, options,
        CbBody.val (JVal.obj [])⟩] := by
  simp only [handleRequest, hres, hlk]
  by_cases h : request.method = "OPTIONS" <;> simp [h]

/-- Witness: an OPTIONS request on a node that only handles GET gets the
200 preflight response with the fixed headers and empty body. -/
theorem missing_handler_options_and_404_witness :
    handleRequest exTreeA exAuth exReqOpt = [⟨200, options, CbBody.val (JVal.obj [])⟩] := by
  have h := missing_handler_options_and_404 exTreeA exAuth exReqOpt (leafGet exHit)
      (by rw [getQueryResult_eq_resolveSpec]; rfl) rfl
  exact h

/-- C7: `getRequestData` returns the pre-parsed query mapping for GET and
DELETE; for every other method it returns the JSON-decoded body when the
body is non-empty and the falsy "absent" sentinel when the body is missing
or empty — never an error on the empty-body path. -/
theorem getRequestData_contract (jsonParse : String → Except JErr JVal)
    (request : Request) :
    ((request.method = "GET" ∨ request.method = "DELETE") →
      getRequestData jsonParse request = .ok (ReqData.query request.query))
    ∧ (request.method ≠ "GET" → request.method ≠ "DELETE" →
        (request.body = none ∨ request.body = some "") →
        getRequestData jsonParse request = .ok ReqData.absent)
    ∧ (∀ s : String, request.method ≠ "GET" → request.method ≠ "DELETE" →
        request.body = some s → s.length > 0 →
        getRequestData jsonParse request = (jsonParse s).map ReqData.parsed) := by
  refine ⟨?_, ?_, ?_⟩
  · intro h
    rw [getRequestData, if_pos h]
  · intro hg hd hb
    have hor : ¬ (request.method = "GET" ∨ request.method = "DELETE") := by
      intro h
      cases h with
      | inl h => exact hg h
      | inr h => exact hd h
    rw [getRequestData, if_neg hor]
    rcases hb with hb | hb
    · rw [hb]
    · rw [hb]
      rfl
  · intro s hg hd hb hlen
    have hor : ¬ (request.method = "GET" ∨ request.method = "DELETE") := by
      intro h
      cases h with
      | inl h => exact hg h
      | inr h => exact hd h
    rw [getRequestData, if_neg hor, hb]
    show (if s.length > 0 then (jsonParse s).map ReqData.parsed else .ok ReqData.absent) = _
    rw [if_pos hlen]

/-- Witness: a POST with an empty body yields the absent sentinel, a GET
yields its pre-parsed query. -/
theorem getRequestData_contract_witness :
    getRequestData exParse exReqPostEmpty = .ok ReqData.absent
    ∧ getRequestData exParse exReqGetQ = .ok (ReqData.query (some (JVal.str "q"))) :=
  ⟨(getRequestData_contract exParse exReqPostEmpty).2.1 (by decide) (by decide) (Or.inr rfl),
   (getRequestData_contract exParse exReqGetQ).1 (Or.inl rfl)⟩

/-- C8: `authenticate(handler)` first awaits the accessor, then awaits
`handler(user, request)`, and resolves with a status-200 Response with empty
headers and the handler result as body; when the accessor rejects, the
rejection propagates unchanged and the result does not depend on the handler
at all (the handler is never invoked); a handler rejection also propagates
unchanged (no error handling in the wrapper). -/
theorem authenticate_contract {U : Type} (handler : U → Request → Except JErr JVal)
    (request : Request) (auth : Unit → Except JErr U) :
    (∀ (u : U) (v : JVal), auth () = .ok u → handler u request = .ok v →
      authenticate handler request auth =
        .ok { statusCode := 200, headers := [], body := v })
    ∧ (∀ (u : U) (e : JErr), auth () = .ok u → handler u request = .error e →
        authenticate handler request auth = .error e)
    ∧ (∀ e : JErr, auth () = .error e →
        authenticate handler request auth = .error e
        ∧ ∀ handler2 : U → Request → Except JErr JVal,
            authenticate handler2 request auth = authenticate handler request auth) := by
  refine ⟨?_, ?_, ?_⟩
  · intro u v hu hv
    simp only [authenticate, hu, hv]
  · intro u e hu he
    simp only [authenticate, hu, he]
  · intro e he
    constructor
    · simp only [authenticate, he]
    · intro handler2
      simp only [authenticate, he]

/-- Witness: with a rejecting accessor the wrapper rejects with the same
error. -/
theorem authenticate_contract_witness :
    authenticate exHandler exReqPost exAuthReject = .error exAuthErr :=
  ((authenticate_contract exHandler exReqPost exAuthReject).2.2 exAuthErr rfl).1

/-- C5: on handler success the callback is invoked with status 200 no matter
what the statusCode field of the handler Response says, with headers equal
to the fixed base header set overlaid (object spread) by the handler
Response headers — handler entries winning on key collision — and with the
handler body passed through unchanged. -/
theorem success_response_contract {U : Type} (root : ServiceNode U)
    (auth : Unit → Except JErr U) (request : Request) (node : ServiceNode U)
    (method : Request → (Unit → Except JErr U) → Except JErr Response)
    (response : Response) :
    (getQueryResult root (readParts (some request.path)) 0 = .ok node →
      node.methods.lookup request.method = some method →
      method request auth = .ok response →
      handleRequest root auth request =
        [⟨200, spread options response.headers, CbBody.val response.body⟩])
    ∧ (∀ (k v : String), (response.headers.map Prod.fst).Nodup →
        response.headers.lookup k = some v →
        (spread options response.headers).lookup k = some v)
    ∧ (∀ k : String, response.headers.lookup k = none →
        (spread options response.headers).lookup k = options.lookup k) := by
  refine ⟨?_, ?_, ?_⟩
  · intro hres hlk hm
    simp only [handleRequest, hres, hlk, hm, returnResponseCall]
  · intro k v hnd hk
    exact lookup_spread_of_right response.headers options k v hnd hk
  · intro k hk
    exact lookup_spread_of_not_right response.headers options k hk

/-- Witness: a GET on the "a" child delivers 200 with the spread headers and
the handler body, even though the handler Response could have carried any
statusCode. -/
theorem success_response_contract_witness :
    handleRequest exTreeA exAuth exReqGet =
      [⟨200, spread options [], CbBody.val (JVal.str "hit")⟩] := by
  have h := (success_response_contract exTreeA exAuth exReqGet (leafGet exHit)
      (fun _ _ => .ok exHit) exHit).1
      (by rw [getQueryResult_eq_resolveSpec]; rfl) rfl rfl
  exact h

/-- C4 counterexample: an error carrying the numeric status-code field 0 is
not wrapped preserving that code — the JavaScript truthiness test
`if (e.statusCode)` sends it to the 500 branch, which also drops its
body. -/
theorem getError_zero_status_counterexample :
    getError (JErr.plain (some 0) (some "m") (JVal.str "b")) =
      { statusCode := 500, message := some "m", body := JVal.null }
    ∧ getError (JErr.plain (some 0) (some "m") (JVal.str "b")) ≠
      { statusCode := 0, message := some "m", body := JVal.str "b" } := by
  constructor
  · rfl
  · intro h
    have h5 : (500 : Int) = 0 := congrArg HttpError.statusCode h
    norm_num at h5

/-- C4 (amended): the error path normalizes a thrown value by passing an
HttpError through unchanged, wrapping an error carrying a truthy (nonzero)
numeric status-code field while preserving that code, its message and its
body, and wrapping anything else as status 500 with its message; the
normalized error is delivered via the callback with its status code, the
fixed base header set, and a body carrying the original request, the error
message, and the structured error body (null in the 500 wrap). -/
theorem error_normalization_contract {U : Type} (root : ServiceNode U)
    (auth : Unit → Except JErr U) (request : Request) (node : ServiceNode U)
    (method : Request → (Unit → Except JErr U) → Except JErr Response) (e : JErr) :
    (∀ he : HttpError, getError (JErr.httpError he) = he)
    ∧ (∀ (n : Int) (msg : Option String) (b : JVal), n ≠ 0 →
        getError (JErr.plain (some n) msg b) = ⟨n, msg, b⟩)
    ∧ (∀ (msg : Option String) (b : JVal),
        getError (JErr.plain none msg b) = ⟨500, msg, JVal.null⟩)
    ∧ (getQueryResult root (readParts (some request.path)) 0 = .ok node →
        node.methods.lookup request.method = some method →
        method request auth = .error e →
        handleRequest root auth request =
          [⟨(getError e).statusCode, options,
            CbBody.err request (getError e).message (getError e).body⟩])
    ∧ (∀ he : HttpError,
        getQueryResult root (readParts (some request.path)) 0 = .error he →
        handleRequest root auth request =
          [⟨he.statusCode, options, CbBody.err request he.message he.body⟩]) := by
  refine ⟨?_, ?_, ?_, ?_, ?_⟩
  · intro he
    rfl
  · intro n msg b hn
    have ht : statusCodeTruthy (some n) = true := by
      simp [statusCodeTruthy]
      exact hn
    rw [getError, if_pos ht]
    rfl
  · intro msg b
    rfl
  · intro hres hlk hm
    simp only [handleRequest, hres, hlk, hm, returnErrorCall]
  · intro he hres
    simp only [handleRequest, hres, returnErrorCall, getError]

/-- Witness: a POST handler rejecting with a plain 403-tagged error reaches
the callback as 403 with the fixed headers and the error-shaped body. -/
theorem error_normalization_contract_witness :
    handleRequest exTreeReject exAuth exReqPost =
      [⟨403, options, CbBody.err exReqPost (some "forbidden") (JVal.str "extra")⟩] := by
  have h := (error_normalization_contract exTreeReject exAuth exReqPost exTreeReject
      (fun _ _ => .error exErr) exErr).2.2.2.1
      (by rw [getQueryResult_eq_resolveSpec]; rfl) rfl rfl
  exact h

/-- C2 counterexample: for the request path "/a?x=1" the segment sequence
used for tree resolution is ["a?x=1"] — it still contains the full query
suffix — and dispatch against a tree with a child named "a" consequently
404s instead of invoking the GET handler of that child. -/
theorem query_suffix_in_segments_counterexample :
    readParts (some "/a?x=1") = ["a?x=1"]
    ∧ ("a?x=1" : String).toList.contains '?' = true
    ∧ handleRequest exTreeA exAuth exReqQuery =
        [⟨404, options,
          CbBody.err exReqQuery (some "Resource not found: a?x=1. Did you mean a?")
            JVal.null⟩] := by
  refine ⟨rfl, rfl, ?_⟩
  simp only [handleRequest, getQueryResult_eq_resolveSpec]
  rfl

/-- C2 (amended): `handleRequest` performs no query splitting — the segment
sequence used for tree resolution is `readParts` of the raw path, so a `?`
occurring after the first character of the path survives inside one of the
segments handed to resolution. -/
theorem query_suffix_not_split (path : String)
    (h : '?' ∈ path.toList.drop 1) :
    ∃ seg ∈ readParts (some path), '?' ∈ seg.toList := by
  have hne : ¬ path.length = 0 := by
    intro h0
    have hdata : path.toList = [] := List.length_eq_zero.mp h0
    rw [hdata] at h
    simp at h
  rw [readParts, if_neg hne]
  obtain ⟨g, hg, hxg⟩ :=
    mem_jsSplit_of_mem (show ('?' : Char) ≠ '/' by decide) (path.toList.drop 1) h
  exact ⟨String.mk g, List.mem_map_of_mem _ hg, hxg⟩

/-- Witness: the path "/a?x=1" produces a segment still containing the
question mark. -/
theorem query_suffix_not_split_witness :
    ∃ seg ∈ readParts (some "/a?x=1"), '?' ∈ seg.toList :=
  query_suffix_not_split "/a?x=1" (by decide)

theorem indexOf?_eq_none_of_not_mem {c : Char} :
    ∀ l : List Char, c ∉ l → indexOf? c l = none := by
  intro l
  induction l with
  | nil => intro _; rfl
  | cons x xs ih =>
      intro h
      rw [indexOf?]
      have hx : ¬ x = c := fun e => h (List.mem_cons.mpr (Or.inl e.symm))
      rw [if_neg hx, ih (fun hm => h (List.mem_cons_of_mem _ hm))]
      rfl

theorem indexOf?_append_cons {c : Char} :
    ∀ (l1 l2 : List Char), c ∉ l1 →
      indexOf? c (l1 ++ c :: l2) = some l1.length := by
  intro l1
  induction l1 with
  | nil =>
      intro l2 _
      rw [List.nil_append, indexOf?, if_pos rfl]
      rfl
  | cons x xs ih =>
      intro l2 h
      rw [List.cons_append, indexOf?]
      have hx : ¬ x = c := fun e => h (List.mem_cons.mpr (Or.inl e.symm))
      rw [if_neg hx, ih l2 (fun hm => h (List.mem_cons_of_mem _ hm))]
      rfl

/-- C9: the leaf parsers conform to the spec: `parsePath` returns query
`none` (null) when no `?` is present and otherwise splits at the first `?`,
parsing the suffix as &-separated key=value pairs into a flat mapping of raw
value strings (empty suffix giving the empty mapping); `readParts` splits
off the leading separator and breaks the remainder on `/`, with an absent or
empty path yielding the empty sequence. -/
theorem leaf_parsers_contract (str : String) (l1 l2 rest : List Char) :
    ('?' ∉ str.toList → parsePath str = ⟨str, none⟩)
    ∧ ('?' ∉ l1 → parsePath (String.mk (l1 ++ '?' :: l2)) =
        ⟨String.mk l1, some (readValues (String.mk l2))⟩)
    ∧ readValues "" = []
    ∧ readValues "a=1&b=2&c=8" = [("a", some "1"), ("b", some "2"), ("c", some "8")]
    ∧ readParts none = []
    ∧ readParts (some "") = []
    ∧ readParts (some (String.mk ('/' :: rest))) =
        (jsSplit '/' rest).map (fun chars => String.mk chars)
    ∧ readParts (some "/a/b/c") = ["a", "b", "c"] := by
  refine ⟨?_, ?_, rfl, rfl, rfl, rfl, ?_, rfl⟩
  · intro h
    simp only [parsePath, indexOf?_eq_none_of_not_mem str.toList h]
  · intro h
    have hidx : indexOf? '?' (String.mk (l1 ++ '?' :: l2)).toList = some l1.length :=
      indexOf?_append_cons l1 l2 h
    have ht : (String.mk (l1 ++ '?' :: l2)).toList.take l1.length = l1 := by
      show (l1 ++ '?' :: l2).take l1.length = l1
      exact List.take_left l1 ('?' :: l2)
    have hd : (String.mk (l1 ++ '?' :: l2)).toList.drop (l1.length + 1) = l2 := by
      show (l1 ++ '?' :: l2).drop (l1.length + 1) = l2
      have heq : l1 ++ '?' :: l2 = (l1 ++ ['?']) ++ l2 := by simp
      rw [heq]
      have hlen : (l1 ++ ['?']).length = l1.length + 1 := by simp
      rw [← hlen, List.drop_left]
    simp only [parsePath, hidx]
    rw [ht, hd]
  · rw [readParts]
    have hlen : ¬ (String.mk ('/' :: rest)).length = 0 := by
      show ¬ ('/' :: rest).length = 0
      simp
    rw [if_neg hlen]
    rfl

/-- Witness: parsing "/foo/bar?x=1" gives path "/foo/bar" and the query
mapping binding x to "1". -/
theorem leaf_parsers_contract_witness :
    parsePath "/foo/bar?x=1" = ⟨"/foo/bar", some [("x", some "1")]⟩ := by
  have h := (leaf_parsers_contract "" "/foo/bar".toList "x=1".toList []).2.1 (by decide)
  exact h

/-- C10: `readParts` unconditionally drops the first character of a
non-empty path: readParts "/" is the one-element sequence containing the
empty string, so a request for "/" looks up a child named "" rather than
returning the root (dispatch against a tree with an "" child hits that
child, and against a tree without one 404s naming the empty segment), and a
path lacking a leading slash loses its first character. -/
theorem readParts_drops_first_char :
    readParts (some "/") = [""]
    ∧ (∀ (c : Char) (rest : List Char),
        readParts (some (String.mk (c :: rest))) =
          (jsSplit '/' rest).map (fun chars => String.mk chars))
    ∧ readParts (some "ab/c") = ["b", "c"]
    ∧ handleRequest exTreeEmptyChild exAuth exReqRoot =
        [⟨200, options, CbBody.val (JVal.str "empty-child")⟩]
    ∧ handleRequest exTreeNoEmptyChild exAuth exReqRoot =
        [⟨404, options,
          CbBody.err exReqRoot (some "Resource not found: . Did you mean a?")
            JVal.null⟩] := by
  refine ⟨rfl, ?_, rfl, ?_, ?_⟩
  · intro c rest
    rw [readParts]
    have hlen : ¬ (String.mk (c :: rest)).length = 0 := by
      show ¬ (c :: rest).length = 0
      simp
    rw [if_neg hlen]
    rfl
  · simp only [handleRequest, getQueryResult_eq_resolveSpec]
    rfl
  · simp only [handleRequest, getQueryResult_eq_resolveSpec]
    rfl

end Httpeter
